import Mathlib

/-!
Verification of the parallel point-merging locator (`vtkSMPMergePoints`).

The header `Filters/SMP/vtkSMPMergePoints.h` declares the merge protocol
(`InitializeMerge`, `Merge`, `FixSizeOfPointArray`) and gives inline bodies
for `GetMaxId`, `GetNumberOfIdsInBucket` and `GetNumberOfBuckets`.  The
bodies of the protocol operations live outside the sampled sources, so they
are modelled from the specification's §4.3/§4.4 algorithm; the inline
accessors are embedded directly from the header.  Coordinates are modelled
as rationals so that every operation is executable and decidable.
-/

namespace SMPMerge

/-- A 3-D point with double-precision coordinates, modelled over ℚ. -/
structure Point where
  x : ℚ
  y : ℚ
  z : ℚ
deriving DecidableEq, Repr

def origin : Point := ⟨0, 0, 0⟩

/-- Squared Euclidean distance between two points. -/
def dist2 (p q : Point) : ℚ :=
  (p.x - q.x) ^ 2 + (p.y - q.y) ^ 2 + (p.z - q.z) ^ 2

/-- Modelled from the spec: the coincidence test used by `insertUnique` and
`Merge` (the neighbour test of the upstream base class is not among the
sampled sources).  §4.3: "tolerance comparison is Euclidean squared distance
against `tolerance²`". -/
def isCoincident (tol : ℚ) (p q : Point) : Bool :=
  decide (dist2 p q ≤ tol ^ 2)

/-- The uniform-grid geometry fixed at construction: bounding box and
divisions `D`. -/
structure GridLayout where
  bmin : Point
  bmax : Point
  d0 : ℕ
  d1 : ℕ
  d2 : ℕ
deriving DecidableEq, Repr

/-- `B = D[0]·D[1]·D[2]`, the number of buckets of the grid. -/
def numBuckets (g : GridLayout) : ℕ := g.d0 * g.d1 * g.d2

/-- Modelled from the spec: one axis of the bucket mapping, floor of the
scaled offset, clamped into `[0, d)`. -/
def binIndex (lo hi : ℚ) (d : ℕ) (x : ℚ) : ℕ :=
  min (⌊(x - lo) * d / (hi - lo)⌋.toNat) (d - 1)

/-- Modelled from the spec: `bucketOf(p)`, the linear bucket index of a
point under the grid mapping. -/
def bucketOf (g : GridLayout) (p : Point) : ℕ :=
  binIndex g.bmin.x g.bmax.x g.d0 p.x
    + binIndex g.bmin.y g.bmax.y g.d1 p.y * g.d0
    + binIndex g.bmin.z g.bmax.z g.d2 p.z * (g.d0 * g.d1)

/-- The locator: grid geometry, tolerance, buckets of point ids, the
point array (physical length = capacity, logical length = `size`), one
scalar attribute array, and the atomic insertion counter. -/
structure Locator where
  layout : GridLayout
  tolerance : ℚ
  buckets : List (List ℕ)
  pointArray : List Point
  attrs : List ℚ
  counter : ℕ
  size : ℕ
deriving DecidableEq, Repr

/-- The coordinates stored for id `i`. -/
def ptAt (l : Locator) (i : ℕ) : Point := l.pointArray.getD i origin

/-- The ordered id list of bucket `b`. -/
def bucketIds (l : Locator) (b : ℕ) : List ℕ := l.buckets.getD b []

/-- First id in `bucket` whose stored point is within tolerance of `p`. -/
def findCoincident (tol : ℚ) (pts : List Point) (bucket : List ℕ) (p : Point) :
    Option ℕ :=
  bucket.find? (fun i => isCoincident tol (pts.getD i origin) p)

/-- Modelled from the spec: `vtkSMPMergePoints::InitializeMerge` (body not
among the sampled sources) — "reset `dst`'s atomic counter to 0, clear all
buckets, keep `(bbox, D, tolerance)` intact". -/
def InitializeMerge (l : Locator) : Locator :=
  { l with counter := 0, buckets := l.buckets.map (fun _ => []) }

/-- Modelled from the spec: `vtkSMPMergePoints::FixSizeOfPointArray` (body
not among the sampled sources) — "sets the destination PointArray's logical
length to `dst.counter.load()`". -/
def FixSizeOfPointArray (l : Locator) : Locator :=
  { l with size := l.counter }

/-- `vtkSMPMergePoints::GetMaxId`, from the header inline body:
`return this->AtomicInsertionId - 1;` (signed id arithmetic). -/
def GetMaxId (l : Locator) : ℤ := (l.counter : ℤ) - 1

/-- The error taxonomy of the merge protocol (spec §7). -/
inductive MergeError where
  | layoutMismatch
  | bucketOutOfRange
  | remapTooSmall
  | capacityExceeded
deriving DecidableEq, Repr

/-- The mutable state threaded through a merge call: the destination
locator and the caller-owned id remap (`none` = not yet written). -/
structure MergeState where
  dst : Locator
  remap : List (Option ℕ)
deriving DecidableEq, Repr

/-- Modelled from the spec: one iteration of the `Merge` loop (§4.4
step 2).  Look the source point up in the destination bucket; on a hit
record the remap, otherwise claim a fresh id from the counter, store the
point, append the id to the bucket, copy the attribute tuple and record
the remap.  Storing past the preallocated capacity is `CapacityExceeded`. -/
def mergeStep (src : Locator) (b : ℕ) (st : MergeState) (sId : ℕ) :
    Except MergeError MergeState :=
  match findCoincident st.dst.tolerance st.dst.pointArray
      (st.dst.buckets.getD b []) (src.pointArray.getD sId origin) with
  | some d => Except.ok { st with remap := st.remap.set sId (some d) }
  | none =>
      if st.dst.counter < st.dst.pointArray.length then
        Except.ok
          { dst :=
              { st.dst with
                pointArray := st.dst.pointArray.set st.dst.counter
                    (src.pointArray.getD sId origin)
                buckets := st.dst.buckets.set b
                    (st.dst.buckets.getD b [] ++ [st.dst.counter])
                attrs := st.dst.attrs.set st.dst.counter
                    (src.attrs.getD sId 0)
                counter := st.dst.counter + 1 }
            remap := st.remap.set sId (some st.dst.counter) }
      else Except.error MergeError.capacityExceeded

/-- Modelled from the spec: the `Merge` loop over the ordered id sequence
of the source bucket.  When a step raises an error the loop stops and the
state reached so far is surfaced unchanged together with the error. -/
def mergeLoop (src : Locator) (b : ℕ) :
    List ℕ → MergeState → MergeState × Option MergeError
  | [], st => (st, none)
  | sId :: rest, st =>
      match mergeStep src b st sId with
      | Except.error e => (st, some e)
      | Except.ok st' => mergeLoop src b rest st'

/-- Modelled from the spec: `vtkSMPMergePoints::Merge` (body not among the
sampled sources).  Checks the §4.4 preconditions — identical binning
structure, valid bucket index, sufficiently large remap — and then merges
bucket `b` of `src` into bucket `b` of `dst`. -/
def Merge (dst src : Locator) (b : ℕ) (remap : List (Option ℕ)) :
    MergeState × Option MergeError :=
  if dst.layout ≠ src.layout then
    (⟨dst, remap⟩, some MergeError.layoutMismatch)
  else if numBuckets dst.layout ≤ b then
    (⟨dst, remap⟩, some MergeError.bucketOutOfRange)
  else if remap.length < src.counter then
    (⟨dst, remap⟩, some MergeError.remapTooSmall)
  else mergeLoop src b (bucketIds src b) ⟨dst, remap⟩

/-- Modelled from the spec: `insertUnique(p, attrs)` (§4.3).  Looks `p` up
in its own bucket; a hit returns the existing id with `wasNew = false`,
otherwise a fresh id is claimed, the point stored, the id appended to the
bucket and the attribute recorded. -/
def insertUnique (l : Locator) (p : Point) (a : ℚ) :
    Except MergeError (Locator × ℕ × Bool) :=
  match findCoincident l.tolerance l.pointArray
      (l.buckets.getD (bucketOf l.layout p) []) p with
  | some d => Except.ok (l, d, false)
  | none =>
      if l.counter < l.pointArray.length then
        Except.ok
          ({ l with
              pointArray := l.pointArray.set l.counter p
              buckets := l.buckets.set (bucketOf l.layout p)
                  (l.buckets.getD (bucketOf l.layout p) [] ++ [l.counter])
              attrs := l.attrs.set l.counter a
              counter := l.counter + 1 }, l.counter, true)
      else Except.error MergeError.capacityExceeded

/-- The raw hashed representation visible in the header: `HashTable` may be
unallocated (`none`), and an allocated table may hold unallocated bucket
lists (`none`). -/
structure HashedLocator where
  hashTable : Option (List (Option (List ℕ)))
deriving DecidableEq, Repr

/-- `vtkSMPMergePoints::GetNumberOfIdsInBucket`, from the header inline
body: a null `HashTable` yields 0, a null bucket yields 0, otherwise the
bucket's `GetNumberOfIds()`. -/
def GetNumberOfIdsInBucket (l : HashedLocator) (idx : ℕ) : ℕ :=
  match l.hashTable with
  | none => 0
  | some table =>
      match table.getD idx none with
      | none => 0
      | some bucket => bucket.length

/-- `vtkSMPMergePoints::GetNumberOfBuckets`, from the header inline body. -/
def GetNumberOfBuckets (l : Locator) : ℕ := l.buckets.length

/-! ### Invariants, reachability and the specification-side count -/

/-- Every id stored in a bucket has been allocated by the counter. -/
def idsBound (l : Locator) : Prop :=
  ∀ b i, i ∈ bucketIds l b → i < l.counter

/-- The running invariant of a destination locator: the bucket table has the
grid's size, bucket ids are below the counter, the counter never exceeds the
preallocated capacity, points inside one bucket are pairwise farther apart
than the tolerance, and every allocated id sits in some bucket. -/
structure Inv (l : Locator) : Prop where
  grid : l.buckets.length = numBuckets l.layout
  ids : idsBound l
  cap : l.counter ≤ l.pointArray.length
  dedup : ∀ b, (bucketIds l b).Pairwise
      (fun i j => l.tolerance ^ 2 < dist2 (ptAt l i) (ptAt l j))
  density : ∀ i, i < l.counter → ∃ b, i ∈ bucketIds l b

/-- Destination locators reachable by the documented protocol: a call to
`InitializeMerge` on a locator whose bucket table matches its grid,
followed by any sequence of `Merge` calls. -/
inductive Reachable : Locator → Prop where
  | init (l : Locator) (h : l.buckets.length = numBuckets l.layout) :
      Reachable (InitializeMerge l)
  | step (dst src : Locator) (b : ℕ) (remap : List (Option ℕ))
      (h : Reachable dst) : Reachable ((Merge dst src b remap).1.dst)

/-- Specification-side count (spec §4.4 postcondition "incremented exactly
by the number of new points added"): replay the source bucket against an
explicit list of already-present coordinates and count the points that
match none of them. -/
def countNewAux (tol : ℚ) (src : Locator) :
    List ℕ → List Point → ℕ
  | [], _ => 0
  | sId :: rest, existing =>
      if existing.any
          (fun q => isCoincident tol q (src.pointArray.getD sId origin)) then
        countNewAux tol src rest existing
      else
        countNewAux tol src rest
          (existing ++ [src.pointArray.getD sId origin]) + 1

/-- Specification-side count of the new points a `Merge` call contributes
to bucket `b`. -/
def countNewPoints (dst src : Locator) (b : ℕ) : ℕ :=
  countNewAux dst.tolerance src (bucketIds src b)
    ((bucketIds dst b).map (ptAt dst))

/-! ### Concrete fixtures used to exercise the theorems -/

/-- A 1×1×1 grid over the box `[0,4]³`. -/
def gridU : GridLayout := ⟨origin, ⟨4, 4, 4⟩, 1, 1, 1⟩

/-- A freshly configured destination with capacity 3 and zero tolerance. -/
def locBase : Locator :=
  { layout := gridU, tolerance := 0, buckets := [[]],
    pointArray := [origin, origin, origin], attrs := [0, 0, 0],
    counter := 0, size := 0 }

/-- A source locator holding two distinct points in bucket 0. -/
def srcTwo : Locator :=
  { layout := gridU, tolerance := 0, buckets := [[0, 1]],
    pointArray := [⟨1, 1, 1⟩, ⟨2, 2, 2⟩], attrs := [10, 20],
    counter := 2, size := 2 }

/-- A remap sized for `srcTwo`. -/
def remapTwo : List (Option ℕ) := [none, none]

/-- The state that initializing `locBase` and merging bucket 0 of `srcTwo`
into it produces. -/
def mergedTwoSt : MergeState :=
  ⟨{ layout := gridU, tolerance := 0, buckets := [[0, 1]],
     pointArray := [⟨1, 1, 1⟩, ⟨2, 2, 2⟩, origin], attrs := [10, 20, 0],
     counter := 2, size := 0 },
   [some 0, some 1]⟩

/-- The locator `insertUnique locBase (1,1,1) 5` produces. -/
def locIns : Locator :=
  { layout := gridU, tolerance := 0, buckets := [[0]],
    pointArray := [⟨1, 1, 1⟩, origin, origin], attrs := [5, 0, 0],
    counter := 1, size := 0 }

/-! ### Small list helpers -/

theorem getD_set_ne {α : Type} (l : List α) {i j : ℕ} (h : i ≠ j) (a d : α) :
    (l.set i a).getD j d = l.getD j d := by
  simp [List.getD_eq_getElem?_getD, List.getElem?_set, h]

theorem getD_set_self {α : Type} (l : List α) {i : ℕ} (h : i < l.length)
    (a d : α) : (l.set i a).getD i d = a := by
  simp [List.getD_eq_getElem?_getD, List.getElem?_set_self h]

theorem any_map_comp {α β : Type} (f : α → β) (l : List α) (p : β → Bool) :
    (l.map f).any p = l.any (fun a => p (f a)) := by
  induction l with
  | nil => rfl
  | cons a t ih => simp [List.any_cons, ih]

/-! ### Basic facts about the squared distance -/

theorem dist2_comm (p q : Point) : dist2 p q = dist2 q p := by
  unfold dist2; ring

theorem dist2_self (p : Point) : dist2 p p = 0 := by
  unfold dist2; ring

theorem dist2_nonpos_iff (p q : Point) : dist2 p q ≤ 0 ↔ p = q := by
  constructor
  · intro h
    unfold dist2 at h
    have hx2 : (p.x - q.x) ^ 2 = 0 := by
      nlinarith [sq_nonneg (p.x - q.x), sq_nonneg (p.y - q.y),
        sq_nonneg (p.z - q.z)]
    have hy2 : (p.y - q.y) ^ 2 = 0 := by
      nlinarith [sq_nonneg (p.x - q.x), sq_nonneg (p.y - q.y),
        sq_nonneg (p.z - q.z)]
    have hz2 : (p.z - q.z) ^ 2 = 0 := by
      nlinarith [sq_nonneg (p.x - q.x), sq_nonneg (p.y - q.y),
        sq_nonneg (p.z - q.z)]
    have hx : p.x = q.x := by
      have h0 := pow_eq_zero_iff (n := 2) (by norm_num) |>.mp hx2
      linarith [sub_eq_zero.mp h0]
    have hy : p.y = q.y := by
      have h0 := pow_eq_zero_iff (n := 2) (by norm_num) |>.mp hy2
      linarith [sub_eq_zero.mp h0]
    have hz : p.z = q.z := by
      have h0 := pow_eq_zero_iff (n := 2) (by norm_num) |>.mp hz2
      linarith [sub_eq_zero.mp h0]
    cases p; cases q
    simp_all
  · intro h; subst h; simp [dist2_self]

/-! ### Locator invariants -/

theorem bucketIds_InitializeMerge (l : Locator) (b : ℕ) :
    bucketIds (InitializeMerge l) b = [] := by
  unfold bucketIds InitializeMerge
  simp only [List.getD_eq_getElem?_getD, List.getElem?_map]
  cases l.buckets[b]? <;> simp

theorem Inv_InitializeMerge (l : Locator)
    (hgrid : l.buckets.length = numBuckets l.layout) :
    Inv (InitializeMerge l) := by
  refine ⟨?_, ?_, ?_, ?_, ?_⟩
  · simpa [InitializeMerge] using hgrid
  · intro b i hi
    rw [bucketIds_InitializeMerge] at hi
    simp at hi
  · simp [InitializeMerge]
  · intro b
    rw [bucketIds_InitializeMerge]
    exact List.Pairwise.nil
  · intro i hi
    simp [InitializeMerge] at hi

/-- Characterization of one merge-loop iteration: either the source point
hits an existing destination point and only the remap entry is written, or
it misses, capacity admits it, and the full insertion happens. -/
theorem mergeStep_cases {src : Locator} {b : ℕ} {st st' : MergeState}
    {sId : ℕ} (h : mergeStep src b st sId = Except.ok st') :
    (∃ d, findCoincident st.dst.tolerance st.dst.pointArray
        (bucketIds st.dst b) (src.pointArray.getD sId origin) = some d ∧
      st' = { st with remap := st.remap.set sId (some d) }) ∨
    (findCoincident st.dst.tolerance st.dst.pointArray (bucketIds st.dst b)
        (src.pointArray.getD sId origin) = none ∧
      st.dst.counter < st.dst.pointArray.length ∧
      st' = { dst := { st.dst with
                pointArray := st.dst.pointArray.set st.dst.counter
                    (src.pointArray.getD sId origin)
                buckets := st.dst.buckets.set b
                    (bucketIds st.dst b ++ [st.dst.counter])
                attrs := st.dst.attrs.set st.dst.counter
                    (src.attrs.getD sId 0)
                counter := st.dst.counter + 1 }
              remap := st.remap.set sId (some st.dst.counter) }) := by
  unfold mergeStep at h
  cases hf : findCoincident st.dst.tolerance st.dst.pointArray
      (st.dst.buckets.getD b []) (src.pointArray.getD sId origin) with
  | some d =>
      left
      rw [hf] at h
      simp only [Except.ok.injEq] at h
      exact ⟨d, hf, h.symm⟩
  | none =>
      right
      rw [hf] at h
      by_cases hc : st.dst.counter < st.dst.pointArray.length
      · simp only [if_pos hc, Except.ok.injEq] at h
        exact ⟨hf, hc, h.symm⟩
      · simp [if_neg hc] at h

theorem mergeStep_frame {src : Locator} {b : ℕ} {st st' : MergeState}
    {sId : ℕ} (h : mergeStep src b st sId = Except.ok st') :
    st'.dst.layout = st.dst.layout ∧
    st'.dst.tolerance = st.dst.tolerance ∧
    st'.dst.buckets.length = st.dst.buckets.length ∧
    st'.dst.pointArray.length = st.dst.pointArray.length ∧
    st'.remap.length = st.remap.length ∧
    st.dst.counter ≤ st'.dst.counter := by
  rcases mergeStep_cases h with ⟨d, hf, rfl⟩ | ⟨hf, hc, rfl⟩ <;>
    simp [List.length_set]

theorem mergeStep_ptAt {src : Locator} {b : ℕ} {st st' : MergeState}
    {sId : ℕ} (h : mergeStep src b st sId = Except.ok st')
    {i : ℕ} (hi : i < st.dst.counter) : ptAt st'.dst i = ptAt st.dst i := by
  rcases mergeStep_cases h with ⟨d, hf, rfl⟩ | ⟨hf, hc, rfl⟩
  · rfl
  · exact getD_set_ne _ (by omega) _ _

/-- Observational description of a missing (inserting) merge step: the
counter advances by one, the claimed id's coordinates become the source
point, bucket `b` gains the claimed id at its end, and everything else is
untouched. -/
theorem mergeStep_miss_obs {src : Locator} {b : ℕ} {st st' : MergeState}
    {sId : ℕ}
    (hc : st.dst.counter < st.dst.pointArray.length)
    (hb : b < st.dst.buckets.length)
    (hst' : st' = { dst := { st.dst with
                      pointArray := st.dst.pointArray.set st.dst.counter
                          (src.pointArray.getD sId origin)
                      buckets := st.dst.buckets.set b
                          (bucketIds st.dst b ++ [st.dst.counter])
                      attrs := st.dst.attrs.set st.dst.counter
                          (src.attrs.getD sId 0)
                      counter := st.dst.counter + 1 }
                    remap := st.remap.set sId (some st.dst.counter) }) :
    st'.dst.counter = st.dst.counter + 1 ∧
    st'.dst.tolerance = st.dst.tolerance ∧
    st'.dst.layout = st.dst.layout ∧
    st'.dst.pointArray.length = st.dst.pointArray.length ∧
    st'.dst.buckets.length = st.dst.buckets.length ∧
    bucketIds st'.dst b = bucketIds st.dst b ++ [st.dst.counter] ∧
    (∀ b', b' ≠ b → bucketIds st'.dst b' = bucketIds st.dst b') ∧
    (∀ i, i < st.dst.counter → ptAt st'.dst i = ptAt st.dst i) ∧
    ptAt st'.dst st.dst.counter = src.pointArray.getD sId origin := by
  subst hst'
  refine ⟨rfl, rfl, rfl, List.length_set _ _ _, List.length_set _ _ _,
    ?_, ?_, ?_, ?_⟩
  · exact getD_set_self _ hb _ _
  · intro b' hb'
    exact getD_set_ne _ (fun e => hb' e.symm) _ _
  · intro i hi
    exact getD_set_ne _ (by omega) _ _
  · exact getD_set_self _ hc _ _

theorem mergeStep_Inv {src : Locator} {b : ℕ} {st st' : MergeState}
    {sId : ℕ} (h : mergeStep src b st sId = Except.ok st')
    (hb : b < st.dst.buckets.length) (hinv : Inv st.dst) : Inv st'.dst := by
  rcases mergeStep_cases h with ⟨d, hf, rfl⟩ | ⟨hf, hc, hst'⟩
  · exact hinv
  · obtain ⟨hco, htol, hlay, hlenp, hlenb, hBb, hBne, hpt, hptc⟩ :=
      mergeStep_miss_obs hc hb hst'
    have hmiss : ∀ i ∈ bucketIds st.dst b,
        st.dst.tolerance ^ 2 < dist2 (ptAt st.dst i)
          (src.pointArray.getD sId origin) := by
      intro i hi
      have hni := List.find?_eq_none.mp hf i hi
      simp only [isCoincident, decide_eq_true_eq] at hni
      exact lt_of_not_le hni
    refine ⟨?_, ?_, ?_, ?_, ?_⟩
    · rw [hlenb, hlay]
      exact hinv.grid
    · intro b' i hi
      rw [hco]
      by_cases hbb : b' = b
      · subst hbb
        rw [hBb] at hi
        rcases List.mem_append.mp hi with hi' | hi'
        · exact Nat.lt_succ_of_lt (hinv.ids b' i hi')
        · simp only [List.mem_singleton] at hi'
          omega
      · rw [hBne b' hbb] at hi
        exact Nat.lt_succ_of_lt (hinv.ids b' i hi)
    · rw [hco, hlenp]
      exact hc
    · intro b'
      rw [htol]
      by_cases hbb : b' = b
      · subst hbb
        rw [hBb, List.pairwise_append]
        refine ⟨?_, List.pairwise_singleton _ _, ?_⟩
        · refine (hinv.dedup b').imp_of_mem ?_
          intro i j hi hj hij
          rw [hpt i (hinv.ids b' i hi), hpt j (hinv.ids b' j hj)]
          exact hij
        · intro i hi j hj
          simp only [List.mem_singleton] at hj
          subst hj
          rw [hpt i (hinv.ids b' i hi), hptc]
          exact hmiss i hi
      · rw [hBne b' hbb]
        refine (hinv.dedup b').imp_of_mem ?_
        intro i j hi hj hij
        rw [hpt i (hinv.ids b' i hi), hpt j (hinv.ids b' j hj)]
        exact hij
    · intro i hi
      rw [hco] at hi
      rcases Nat.lt_succ_iff_lt_or_eq.mp hi with hi' | hi'
      · obtain ⟨b0, hb0⟩ := hinv.density i hi'
        by_cases hbb : b0 = b
        · subst hbb
          exact ⟨b0, by rw [hBb]; exact List.mem_append_left _ hb0⟩
        · exact ⟨b0, by rw [hBne b0 hbb]; exact hb0⟩
      · subst hi'
        exact ⟨b, by
          rw [hBb]
          exact List.mem_append_right _ (List.mem_singleton.mpr rfl)⟩

/-- A merge step writes exactly one remap entry, and it is a valid id of
the stepped destination. -/
theorem mergeStep_remap {src : Locator} {b : ℕ} {st st' : MergeState}
    {sId : ℕ} (h : mergeStep src b st sId = Except.ok st')
    (hinv : Inv st.dst) :
    ∃ v, v < st'.dst.counter ∧ st'.remap = st.remap.set sId (some v) := by
  rcases mergeStep_cases h with ⟨d, hf, rfl⟩ | ⟨hf, hc, rfl⟩
  · exact ⟨d, hinv.ids b d (List.mem_of_find?_eq_some hf), rfl⟩
  · exact ⟨st.dst.counter, Nat.lt_succ_self _, rfl⟩

/-! ### The merge loop -/

theorem mergeLoop_frame {src : Locator} {b : ℕ} (ids : List ℕ) :
    ∀ st st' oe, mergeLoop src b ids st = (st', oe) →
      st'.dst.layout = st.dst.layout ∧
      st'.dst.tolerance = st.dst.tolerance ∧
      st'.dst.buckets.length = st.dst.buckets.length ∧
      st'.dst.pointArray.length = st.dst.pointArray.length ∧
      st'.remap.length = st.remap.length ∧
      st.dst.counter ≤ st'.dst.counter := by
  induction ids with
  | nil =>
      intro st st' oe h
      simp only [mergeLoop, Prod.mk.injEq] at h
      rw [← h.1]
      exact ⟨rfl, rfl, rfl, rfl, rfl, le_refl _⟩
  | cons sId rest ih =>
      intro st st' oe h
      simp only [mergeLoop] at h
      cases hs : mergeStep src b st sId with
      | error e =>
          rw [hs] at h
          simp only [Prod.mk.injEq] at h
          rw [← h.1]
          exact ⟨rfl, rfl, rfl, rfl, rfl, le_refl _⟩
      | ok st1 =>
          rw [hs] at h
          obtain ⟨f1, f2, f3, f4, f5, f6⟩ := mergeStep_frame hs
          obtain ⟨g1, g2, g3, g4, g5, g6⟩ := ih st1 st' oe h
          exact ⟨g1.trans f1, g2.trans f2, g3.trans f3, g4.trans f4,
            g5.trans f5, f6.trans g6⟩

theorem mergeLoop_Inv {src : Locator} {b : ℕ} (ids : List ℕ) :
    ∀ st st' oe, mergeLoop src b ids st = (st', oe) →
      b < st.dst.buckets.length → Inv st.dst → Inv st'.dst := by
  induction ids with
  | nil =>
      intro st st' oe h hb hinv
      simp only [mergeLoop, Prod.mk.injEq] at h
      rw [← h.1]
      exact hinv
  | cons sId rest ih =>
      intro st st' oe h hb hinv
      simp only [mergeLoop] at h
      cases hs : mergeStep src b st sId with
      | error e =>
          rw [hs] at h
          simp only [Prod.mk.injEq] at h
          rw [← h.1]
          exact hinv
      | ok st1 =>
          rw [hs] at h
          have hb1 : b < st1.dst.buckets.length := by
            rw [(mergeStep_frame hs).2.2.1]
            exact hb
          exact ih st1 st' oe h hb1 (mergeStep_Inv hs hb hinv)

/-- Remap coverage of the merge loop: entries outside the processed ids are
untouched, and every processed id (within the remap's length) ends up
mapped to a valid destination id. -/
theorem mergeLoop_remap {src : Locator} {b : ℕ} (ids : List ℕ) :
    ∀ st st', mergeLoop src b ids st = (st', none) →
      b < st.dst.buckets.length → Inv st.dst →
      ((∀ i, i ∉ ids → st'.remap.getD i none = st.remap.getD i none) ∧
       (∀ sId ∈ ids, sId < st.remap.length →
         ∃ d, d < st'.dst.counter ∧ st'.remap.getD sId none = some d)) := by
  induction ids with
  | nil =>
      intro st st' h hb hinv
      simp only [mergeLoop, Prod.mk.injEq] at h
      rw [← h.1]
      exact ⟨fun i _ => rfl, fun sId hs => absurd hs (List.not_mem_nil sId)⟩
  | cons sId rest ih =>
      intro st st' h hb hinv
      simp only [mergeLoop] at h
      cases hs : mergeStep src b st sId with
      | error e =>
          rw [hs] at h
          simp at h
      | ok st1 =>
          rw [hs] at h
          have hb1 : b < st1.dst.buckets.length := by
            rw [(mergeStep_frame hs).2.2.1]
            exact hb
          have hinv1 := mergeStep_Inv hs hb hinv
          obtain ⟨v, hv, hrm⟩ := mergeStep_remap hs hinv
          obtain ⟨iha, ihb⟩ := ih st1 st' h hb1 hinv1
          have hlen1 : st1.remap.length = st.remap.length := by
            rw [hrm]
            exact List.length_set _ _ _
          constructor
          · intro i hi
            have hi1 : i ∉ rest := fun hr => hi (List.mem_cons_of_mem _ hr)
            have hi0 : i ≠ sId := fun e => hi (e ▸ List.mem_cons_self _ _)
            rw [iha i hi1, hrm, getD_set_ne _ (fun e => hi0 e.symm) _ _]
          · intro s hsmem hslen
            rcases List.mem_cons.mp hsmem with hseq | hsrest
            · subst hseq
              by_cases hsin : s ∈ rest
              · exact ihb s hsin (by rw [hlen1]; exact hslen)
              · refine ⟨v, ?_, ?_⟩
                · exact lt_of_lt_of_le hv
                    (mergeLoop_frame rest st1 st' none h).2.2.2.2.2
                · rw [iha s hsin, hrm, getD_set_self _ hslen _ _]
            · exact ihb s hsrest (by rw [hlen1]; exact hslen)

theorem mergeLoop_count {src : Locator} {b : ℕ} (ids : List ℕ) :
    ∀ st st', mergeLoop src b ids st = (st', none) →
      b < st.dst.buckets.length → Inv st.dst →
      st'.dst.counter = st.dst.counter +
        countNewAux st.dst.tolerance src ids
          ((bucketIds st.dst b).map (ptAt st.dst)) := by
  induction ids with
  | nil =>
      intro st st' h hb hinv
      simp only [mergeLoop, Prod.mk.injEq] at h
      rw [← h.1]
      simp [countNewAux]
  | cons sId rest ih =>
      intro st st' h hb hinv
      simp only [mergeLoop] at h
      cases hs : mergeStep src b st sId with
      | error e =>
          rw [hs] at h
          simp at h
      | ok st1 =>
          rw [hs] at h
          have hb1 : b < st1.dst.buckets.length := by
            rw [(mergeStep_frame hs).2.2.1]
            exact hb
          have hinv1 := mergeStep_Inv hs hb hinv
          have hany : ((bucketIds st.dst b).map (ptAt st.dst)).any
              (fun q => isCoincident st.dst.tolerance q
                (src.pointArray.getD sId origin)) =
              (bucketIds st.dst b).any
              (fun i => isCoincident st.dst.tolerance (ptAt st.dst i)
                (src.pointArray.getD sId origin)) :=
            any_map_comp _ _ _
          rcases mergeStep_cases hs with ⟨d, hf, hst1⟩ | ⟨hf, hc, hst1⟩
          · have hd := List.find?_some hf
            have hdm := List.mem_of_find?_eq_some hf
            have htrue : (bucketIds st.dst b).any
                (fun i => isCoincident st.dst.tolerance (ptAt st.dst i)
                  (src.pointArray.getD sId origin)) = true :=
              List.any_eq_true.mpr ⟨d, hdm, hd⟩
            have hst1d : st1.dst = st.dst := by rw [hst1]
            rw [countNewAux, hany, htrue, if_pos rfl]
            have := ih st1 st' h hb1 hinv1
            rw [hst1d] at this
            exact this
          · have hfalse : (bucketIds st.dst b).any
                (fun i => isCoincident st.dst.tolerance (ptAt st.dst i)
                  (src.pointArray.getD sId origin)) = false := by
              rw [List.any_eq_false]
              intro i hi
              exact List.find?_eq_none.mp hf i hi
            rw [countNewAux, hany, hfalse]
            simp only [Bool.false_eq_true, if_false]
            obtain ⟨hco, htol, hlay, hlenp, hlenb, hBb, hBne, hpt, hptc⟩ :=
              mergeStep_miss_obs hc hb hst1
            have hmap : (bucketIds st1.dst b).map (ptAt st1.dst) =
                (bucketIds st.dst b).map (ptAt st.dst) ++
                  [src.pointArray.getD sId origin] := by
              rw [hBb, List.map_append]
              congr 1
              · exact List.map_congr_left
                  (fun i hi => hpt i (hinv.ids b i hi))
              · simp only [List.map_cons, List.map_nil, hptc]
            have := ih st1 st' h hb1 hinv1
            rw [hmap, htol, hco] at this
            omega

/-- When the merge loop surfaces an error, the state it returns is exactly
the state reached after some error-free prefix of the bucket, and the very
next id is the one whose step raised the error: nothing is written past the
point of failure. -/
theorem mergeLoop_error {src : Locator} {b : ℕ} (ids : List ℕ) :
    ∀ st st' e, mergeLoop src b ids st = (st', some e) →
      ∃ k, k < ids.length ∧
        mergeLoop src b (ids.take k) st = (st', none) ∧
        mergeStep src b st' (ids.getD k 0) = Except.error e := by
  induction ids with
  | nil =>
      intro st st' e h
      simp only [mergeLoop, Prod.mk.injEq] at h
      exact absurd h.2 (by simp)
  | cons sId rest ih =>
      intro st st' e h
      simp only [mergeLoop] at h
      cases hs : mergeStep src b st sId with
      | error e' =>
          rw [hs] at h
          simp only [Prod.mk.injEq, Option.some.injEq] at h
          refine ⟨0, Nat.succ_pos _, ?_, ?_⟩
          · rw [← h.1]
            rfl
          · rw [← h.1, ← h.2]
            exact hs
      | ok st1 =>
          rw [hs] at h
          obtain ⟨k, hk, htake, hstep⟩ := ih st1 st' e h
          refine ⟨k + 1, Nat.succ_lt_succ hk, ?_, ?_⟩
          · simp only [List.take_succ_cons, mergeLoop, hs]
            exact htake
          · simpa using hstep

/-! ### Running a full `Merge` call -/

/-- A `Merge` call either fails one of its three precondition checks and
returns the inputs untouched, or all checks pass and the call runs the
bucket loop. -/
theorem Merge_run {dst src : Locator} {b : ℕ} {remap : List (Option ℕ)}
    {st' : MergeState} {oe : Option MergeError}
    (h : Merge dst src b remap = (st', oe)) :
    (st' = ⟨dst, remap⟩ ∧ (oe = some MergeError.layoutMismatch ∨
        oe = some MergeError.bucketOutOfRange ∨
        oe = some MergeError.remapTooSmall)) ∨
    (dst.layout = src.layout ∧ b < numBuckets dst.layout ∧
      src.counter ≤ remap.length ∧
      mergeLoop src b (bucketIds src b) ⟨dst, remap⟩ = (st', oe)) := by
  unfold Merge at h
  by_cases h1 : dst.layout ≠ src.layout
  · rw [if_pos h1] at h
    simp only [Prod.mk.injEq] at h
    exact Or.inl ⟨h.1.symm, Or.inl h.2.symm⟩
  · rw [if_neg h1] at h
    by_cases h2 : numBuckets dst.layout ≤ b
    · rw [if_pos h2] at h
      simp only [Prod.mk.injEq] at h
      exact Or.inl ⟨h.1.symm, Or.inr (Or.inl h.2.symm)⟩
    · rw [if_neg h2] at h
      by_cases h3 : remap.length < src.counter
      · rw [if_pos h3] at h
        simp only [Prod.mk.injEq] at h
        exact Or.inl ⟨h.1.symm, Or.inr (Or.inr h.2.symm)⟩
      · rw [if_neg h3] at h
        exact Or.inr ⟨not_not.mp h1, lt_of_not_le h2, le_of_not_lt h3, h⟩

/-- Unconditional form of `Merge_run`, phrased about the call's value. -/
theorem Merge_run_self (dst src : Locator) (b : ℕ)
    (remap : List (Option ℕ)) :
    (Merge dst src b remap).1 = ⟨dst, remap⟩ ∨
    (mergeLoop src b (bucketIds src b) ⟨dst, remap⟩ =
        ((Merge dst src b remap).1, (Merge dst src b remap).2) ∧
      b < numBuckets dst.layout) := by
  unfold Merge
  by_cases h1 : dst.layout ≠ src.layout
  · rw [if_pos h1]
    exact Or.inl rfl
  · rw [if_neg h1]
    by_cases h2 : numBuckets dst.layout ≤ b
    · rw [if_pos h2]
      exact Or.inl rfl
    · rw [if_neg h2]
      by_cases h3 : remap.length < src.counter
      · rw [if_pos h3]
        exact Or.inl rfl
      · rw [if_neg h3]
        exact Or.inr ⟨Prod.mk.eta.symm, lt_of_not_le h2⟩

theorem Reachable_Inv {l : Locator} (h : Reachable l) : Inv l := by
  induction h with
  | init l hg => exact Inv_InitializeMerge l hg
  | step dst src b remap h ih =>
      rcases Merge_run_self dst src b remap with hst | ⟨hloop, hb⟩
      · rw [hst]
        exact ih
      · refine mergeLoop_Inv _ _ _ _ hloop ?_ ih
        show b < dst.buckets.length
        rw [ih.grid]
        exact hb

/-! ### The grid mapping stays in range -/

theorem binIndex_lt (lo hi : ℚ) {d : ℕ} (hd : 0 < d) (x : ℚ) :
    binIndex lo hi d x < d := by
  unfold binIndex
  exact lt_of_le_of_lt (min_le_right _ _) (Nat.sub_lt hd Nat.one_pos)

theorem bucketOf_lt {g : GridLayout} (h0 : 0 < g.d0) (h1 : 0 < g.d1)
    (h2 : 0 < g.d2) (p : Point) : bucketOf g p < numBuckets g := by
  have key : ∀ (a b x y : ℕ), x < a → y < b → x + y * a < a * b := by
    intro a b x y hx hy
    calc x + y * a < a + y * a := Nat.add_lt_add_right hx _
      _ = (y + 1) * a := by ring
      _ ≤ b * a := Nat.mul_le_mul_right a hy
      _ = a * b := Nat.mul_comm b a
  have hA := key g.d0 g.d1 _ _
    (binIndex_lt g.bmin.x g.bmax.x h0 p.x)
    (binIndex_lt g.bmin.y g.bmax.y h1 p.y)
  exact key (g.d0 * g.d1) g.d2 _ _ hA
    (binIndex_lt g.bmin.z g.bmax.z h2 p.z)

/-- Characterization of `insertUnique`: either the point hits an existing
one and nothing changes, or it misses, capacity admits it, and the full
insertion happens. -/
theorem insertUnique_cases {l l1 : Locator} {p : Point} {a : ℚ} {id : ℕ}
    {wasNew : Bool}
    (h : insertUnique l p a = Except.ok (l1, id, wasNew)) :
    (findCoincident l.tolerance l.pointArray
        (l.buckets.getD (bucketOf l.layout p) []) p = some id ∧
      l1 = l ∧ wasNew = false) ∨
    (findCoincident l.tolerance l.pointArray
        (l.buckets.getD (bucketOf l.layout p) []) p = none ∧
      l.counter < l.pointArray.length ∧ id = l.counter ∧ wasNew = true ∧
      l1 = { l with
        pointArray := l.pointArray.set l.counter p
        buckets := l.buckets.set (bucketOf l.layout p)
            (l.buckets.getD (bucketOf l.layout p) [] ++ [l.counter])
        attrs := l.attrs.set l.counter a
        counter := l.counter + 1 }) := by
  unfold insertUnique at h
  cases hf : findCoincident l.tolerance l.pointArray
      (l.buckets.getD (bucketOf l.layout p) []) p with
  | some d =>
      rw [hf] at h
      simp only [Except.ok.injEq, Prod.mk.injEq] at h
      exact Or.inl ⟨by rw [h.2.1], h.1.symm, h.2.2.symm⟩
  | none =>
      rw [hf] at h
      by_cases hc : l.counter < l.pointArray.length
      · simp only [if_pos hc, Except.ok.injEq, Prod.mk.injEq] at h
        exact Or.inr ⟨rfl, hc, h.2.1.symm, h.2.2.symm, h.1.symm⟩
      · simp [if_neg hc] at h

/-! ### Evaluating the fixtures -/

theorem merge_fixture_eval :
    Merge (InitializeMerge locBase) srcTwo 0 remapTwo = (mergedTwoSt, none) := by
  simp [Merge, mergeLoop, mergeStep, findCoincident, isCoincident,
    InitializeMerge, locBase, srcTwo, remapTwo, mergedTwoSt, bucketIds,
    numBuckets, gridU, dist2, ptAt, origin]
  norm_num

theorem merge_fixture_oob_eval :
    Merge (InitializeMerge locBase) srcTwo 5 remapTwo =
      (⟨InitializeMerge locBase, remapTwo⟩, some MergeError.bucketOutOfRange) := by
  simp [Merge, InitializeMerge, locBase, srcTwo, remapTwo, numBuckets, gridU]

theorem insert_fixture_eval :
    insertUnique locBase ⟨1, 1, 1⟩ 5 = Except.ok (locIns, 0, true) := by
  simp [insertUnique, findCoincident, isCoincident, bucketOf, binIndex,
    locBase, locIns, gridU, dist2, ptAt, origin]

theorem reachable_fixture : Reachable mergedTwoSt.dst := by
  have h := Reachable.step (InitializeMerge locBase) srcTwo 0 remapTwo
    (Reachable.init locBase rfl)
  rw [merge_fixture_eval] at h
  exact h

/-! ### Claims -/

/-- Claim C1: after `InitializeMerge` and any sequence of `Merge` calls on
the destination, any two distinct ids stored in the same bucket name points
whose squared Euclidean distance strictly exceeds the squared tolerance —
`Merge` never creates a duplicate-within-tolerance point inside a single
bucket. -/
theorem merge_within_bucket_dedup {l : Locator} (h : Reachable l) :
    ∀ b, ∀ i ∈ bucketIds l b, ∀ j ∈ bucketIds l b, i ≠ j →
      l.tolerance ^ 2 < dist2 (ptAt l i) (ptAt l j) := by
  have hinv := Reachable_Inv h
  intro b i hi j hj hij
  have hsym : Symmetric (fun i j : ℕ =>
      l.tolerance ^ 2 < dist2 (ptAt l i) (ptAt l j)) := by
    intro a c hac
    rw [dist2_comm]
    exact hac
  exact (hinv.dedup b).forall hsym hi hj hij

/-- Witness for C1: the two-point merge fixture keeps its bucket
tolerance-separated. -/
theorem merge_within_bucket_dedup_w :
    0 ∈ bucketIds mergedTwoSt.dst 0 ∧ 1 ∈ bucketIds mergedTwoSt.dst 0 ∧
    mergedTwoSt.dst.tolerance ^ 2 <
      dist2 (ptAt mergedTwoSt.dst 0) (ptAt mergedTwoSt.dst 1) :=
  ⟨by decide, by decide,
    merge_within_bucket_dedup reachable_fixture 0 0 (by decide) 1 (by decide)
      (by decide)⟩

/-- Claim C2: a successful `Merge` writes, for every source id of bucket
`b`, a remap entry holding a valid destination id (one below the post-call
counter), and leaves remap entries of ids outside bucket `b` untouched. -/
theorem merge_remap_coverage {dst src : Locator} {b : ℕ}
    {remap : List (Option ℕ)} {st' : MergeState}
    (hdst : Inv dst) (hsrc : idsBound src)
    (h : Merge dst src b remap = (st', none)) :
    (∀ sId ∈ bucketIds src b, ∃ d, d < st'.dst.counter ∧
        st'.remap.getD sId none = some d) ∧
    (∀ i, i ∉ bucketIds src b →
        st'.remap.getD i none = remap.getD i none) := by
  rcases Merge_run h with ⟨_, he⟩ | ⟨_, hb, hrlen, hloop⟩
  · rcases he with he | he | he <;> simp at he
  · have hb' : b < dst.buckets.length := by
      rw [hdst.grid]
      exact hb
    obtain ⟨ha, hc⟩ :=
      mergeLoop_remap (bucketIds src b) ⟨dst, remap⟩ st' hloop hb' hdst
    refine ⟨?_, ?_⟩
    · intro sId hs
      exact hc sId hs (lt_of_lt_of_le (hsrc b sId hs) hrlen)
    · intro i hi
      exact ha i hi

/-- Witness for C2 on the two-point merge fixture: source id 0 is remapped
to a valid id and the out-of-bucket entry 5 is untouched. -/
theorem merge_remap_coverage_w :
    (∃ d, d < mergedTwoSt.dst.counter ∧
      mergedTwoSt.remap.getD 0 none = some d) ∧
    mergedTwoSt.remap.getD 5 none = remapTwo.getD 5 none := by
  have hsrc : idsBound srcTwo := by
    intro b i hi
    cases b with
    | zero =>
        simp [bucketIds, srcTwo] at hi
        rcases hi with rfl | rfl <;> decide
    | succ n =>
        simp [bucketIds, srcTwo, List.getD_eq_getElem?_getD] at hi
  have h := merge_remap_coverage (Inv_InitializeMerge locBase rfl) hsrc
    merge_fixture_eval
  exact ⟨h.1 0 (by decide), h.2 5 (by decide)⟩

/-- Claim C3: after `FixSizeOfPointArray` the logical size equals the
counter, and the ids across all buckets are exactly `{0, …, maxId}`: an id
sits in some bucket exactly when it is at most `GetMaxId` (equivalently,
below the counter); ids are dense, zero-based, and no bucket holds an id at
or above the counter. -/
theorem fix_size_id_density {l : Locator} (h : Reachable l) :
    (FixSizeOfPointArray l).size = l.counter ∧
    ∀ i : ℕ, (∃ b, i ∈ bucketIds (FixSizeOfPointArray l) b) ↔
      (i : ℤ) ≤ GetMaxId (FixSizeOfPointArray l) := by
  have hinv := Reachable_Inv h
  refine ⟨rfl, ?_⟩
  intro i
  constructor
  · rintro ⟨b, hb⟩
    have hlt : i < l.counter := hinv.ids b i hb
    show (i : ℤ) ≤ (l.counter : ℤ) - 1
    omega
  · intro hle
    have hle' : (i : ℤ) ≤ (l.counter : ℤ) - 1 := hle
    have hlt : i < l.counter := by omega
    obtain ⟨b, hb⟩ := hinv.density i hlt
    exact ⟨b, hb⟩

/-- Witness for C3 on the two-point merge fixture. -/
theorem fix_size_id_density_w :
    (FixSizeOfPointArray mergedTwoSt.dst).size = mergedTwoSt.dst.counter ∧
    (1 : ℤ) ≤ GetMaxId (FixSizeOfPointArray mergedTwoSt.dst) := by
  have h := fix_size_id_density reachable_fixture
  exact ⟨h.1, (h.2 1).mp ⟨0, by decide⟩⟩

/-- Claim C4: a successful `Merge` call advances the destination counter by
exactly the number of source ids in bucket `b` for which no destination
point within tolerance existed when they were processed. -/
theorem merge_counter_increment {dst src : Locator} {b : ℕ}
    {remap : List (Option ℕ)} {st' : MergeState}
    (hdst : Inv dst) (h : Merge dst src b remap = (st', none)) :
    st'.dst.counter = dst.counter + countNewPoints dst src b := by
  rcases Merge_run h with ⟨_, he⟩ | ⟨_, hb, _, hloop⟩
  · rcases he with he | he | he <;> simp at he
  · have hb' : b < dst.buckets.length := by
      rw [hdst.grid]
      exact hb
    exact mergeLoop_count (bucketIds src b) ⟨dst, remap⟩ st' hloop hb' hdst

/-- Witness for C4: merging the two-point source into the fresh destination
adds exactly the counted number of new points. -/
theorem merge_counter_increment_w :
    mergedTwoSt.dst.counter =
      (InitializeMerge locBase).counter +
        countNewPoints (InitializeMerge locBase) srcTwo 0 :=
  merge_counter_increment (Inv_InitializeMerge locBase rfl) merge_fixture_eval

/-- Claim C5: `InitializeMerge` resets the counter to 0 and clears every
bucket while leaving the grid geometry (bounding box and divisions), the
tolerance, and the bucket count unchanged, so the grid configured at
construction survives any number of such calls. -/
theorem init_merge_effects (l : Locator) :
    (InitializeMerge l).counter = 0 ∧
    (∀ b, bucketIds (InitializeMerge l) b = []) ∧
    (InitializeMerge l).layout = l.layout ∧
    (InitializeMerge l).tolerance = l.tolerance ∧
    (InitializeMerge l).buckets.length = l.buckets.length := by
  refine ⟨rfl, bucketIds_InitializeMerge l, rfl, rfl, ?_⟩
  simp [InitializeMerge]

/-- Claim C6: the coincidence test used by `insertUnique` and `Merge`
compares squared Euclidean distance against the squared tolerance (not a
Chebyshev or per-axis test), and at zero tolerance it accepts exactly the
pairs with equal coordinate triples. -/
theorem coincidence_euclidean_squared :
    (∀ (tol : ℚ) (p q : Point),
      isCoincident tol p q = true ↔ dist2 p q ≤ tol ^ 2) ∧
    (∀ p q : Point, isCoincident 0 p q = true ↔ p = q) := by
  constructor
  · intro tol p q
    simp [isCoincident]
  · intro p q
    simp only [isCoincident, decide_eq_true_eq]
    have h0 : (0 : ℚ) ^ 2 = 0 := by norm_num
    rw [h0]
    exact dist2_nonpos_iff p q

/-- Claim C7: re-inserting the point just returned by `insertUnique`
returns the same id with `wasNew = false`, and the locator (in particular
its counter) is unchanged by the second call. -/
theorem insert_unique_idempotent {l l1 : Locator} {p : Point} {a : ℚ}
    {id : ℕ} {wasNew : Bool}
    (hgrid : l.buckets.length = numBuckets l.layout)
    (h0 : 0 < l.layout.d0) (h1 : 0 < l.layout.d1) (h2 : 0 < l.layout.d2)
    (hids : idsBound l)
    (h : insertUnique l p a = Except.ok (l1, id, wasNew)) :
    insertUnique l1 p a = Except.ok (l1, id, false) := by
  have hblt : bucketOf l.layout p < l.buckets.length := by
    rw [hgrid]
    exact bucketOf_lt h0 h1 h2 p
  rcases insertUnique_cases h with ⟨hf, rfl, rfl⟩ | ⟨hf, hc, rfl, hw, rfl⟩
  · unfold insertUnique
    rw [hf]
  · have hfind : findCoincident l.tolerance
        (l.pointArray.set l.counter p)
        (l.buckets.getD (bucketOf l.layout p) [] ++ [l.counter]) p =
        some l.counter := by
      unfold findCoincident
      rw [List.find?_append]
      have hfst : List.find? (fun i => isCoincident l.tolerance
          ((l.pointArray.set l.counter p).getD i origin) p)
          (l.buckets.getD (bucketOf l.layout p) []) = none := by
        rw [List.find?_eq_none]
        intro i hi
        have hilt : i < l.counter := hids (bucketOf l.layout p) i hi
        rw [getD_set_ne _ (by omega) _ _]
        have hni := List.find?_eq_none.mp hf i hi
        simpa using hni
      have hsnd : List.find? (fun i => isCoincident l.tolerance
          ((l.pointArray.set l.counter p).getD i origin) p) [l.counter] =
          some l.counter := by
        refine List.find?_cons_of_pos _ ?_
        rw [getD_set_self _ hc _ _]
        simp only [isCoincident, decide_eq_true_eq, dist2_self]
        exact sq_nonneg _
      rw [hfst, hsnd]
      rfl
    unfold insertUnique
    dsimp only
    rw [getD_set_self _ hblt _ _, hfind]

/-- Witness for C7 on the single-point insertion fixture. -/
theorem insert_unique_idempotent_w :
    insertUnique locIns ⟨1, 1, 1⟩ 5 = Except.ok (locIns, 0, false) := by
  have hids : idsBound locBase := by
    intro b i hi
    cases b with
    | zero => simp [bucketIds, locBase] at hi
    | succ n => simp [bucketIds, locBase, List.getD_eq_getElem?_getD] at hi
  exact insert_unique_idempotent (by decide) (by decide) (by decide)
    (by decide) hids insert_fixture_eval

/-- Claim C8: `GetMaxId` returns the atomic counter minus one; in
particular it is −1 when the counter is 0, e.g. right after
`InitializeMerge`, and a `Merge` of an empty source bucket leaves the
destination counter unchanged. -/
theorem get_max_id_counter :
    (∀ l : Locator, GetMaxId l = (l.counter : ℤ) - 1) ∧
    (∀ l : Locator, l.counter = 0 → GetMaxId l = -1) ∧
    (∀ l : Locator, GetMaxId (InitializeMerge l) = -1) ∧
    (∀ (dst src : Locator) (b : ℕ) (remap : List (Option ℕ)),
      bucketIds src b = [] →
      (Merge dst src b remap).1.dst.counter = dst.counter) := by
  refine ⟨fun l => rfl, ?_, ?_, ?_⟩
  · intro l h
    unfold GetMaxId
    rw [h]
    rfl
  · intro l
    rfl
  · intro dst src b remap hempty
    rcases Merge_run_self dst src b remap with hst | ⟨hloop, _⟩
    · rw [hst]
    · rw [hempty] at hloop
      simp only [mergeLoop, Prod.mk.injEq] at hloop
      rw [← hloop.1]

/-- Witness for C8: the freshly initialized fixture has max id −1, both
directly and after merging an empty bucket. -/
theorem get_max_id_counter_w :
    GetMaxId locBase = -1 ∧
    GetMaxId (InitializeMerge locBase) = -1 ∧
    (Merge locBase locBase 0 []).1.dst.counter = locBase.counter :=
  ⟨get_max_id_counter.2.1 locBase rfl,
   get_max_id_counter.2.2.1 locBase,
   get_max_id_counter.2.2.2 locBase locBase 0 [] rfl⟩

/-- Claim C9: when a `Merge` call surfaces an error, the destination state
is not mutated past the point where the error arises: a precondition
failure returns the inputs untouched, and a mid-loop capacity failure
returns exactly the state reached by the error-free prefix of the bucket,
the next id's step being the one that raises the error. -/
theorem merge_error_no_mutation {dst src : Locator} {b : ℕ}
    {remap : List (Option ℕ)} {st' : MergeState} {e : MergeError}
    (h : Merge dst src b remap = (st', some e)) :
    st' = ⟨dst, remap⟩ ∨
    ∃ k, k < (bucketIds src b).length ∧
      mergeLoop src b ((bucketIds src b).take k) ⟨dst, remap⟩ =
        (st', none) ∧
      mergeStep src b st' ((bucketIds src b).getD k 0) = Except.error e := by
  rcases Merge_run h with ⟨hst, _⟩ | ⟨_, _, _, hloop⟩
  · exact Or.inl hst
  · exact Or.inr
      (mergeLoop_error (bucketIds src b) ⟨dst, remap⟩ st' e hloop)

/-- Witness for C9 at a concrete out-of-range bucket index. -/
theorem merge_error_no_mutation_w :
    (⟨InitializeMerge locBase, remapTwo⟩ : MergeState) =
      ⟨InitializeMerge locBase, remapTwo⟩ ∨
    ∃ k, k < (bucketIds srcTwo 5).length ∧
      mergeLoop srcTwo 5 ((bucketIds srcTwo 5).take k)
        ⟨InitializeMerge locBase, remapTwo⟩ =
        (⟨InitializeMerge locBase, remapTwo⟩, none) ∧
      mergeStep srcTwo 5 ⟨InitializeMerge locBase, remapTwo⟩
        ((bucketIds srcTwo 5).getD k 0) =
        Except.error MergeError.bucketOutOfRange :=
  merge_error_no_mutation merge_fixture_oob_eval

/-- Claim C10: `GetNumberOfIdsInBucket` returns 0 when the hash table is
unallocated, returns 0 when the table exists but the bucket has no id list
allocated, and otherwise returns the number of ids in that bucket's list. -/
theorem bucket_count_null_tolerant :
    (∀ (l : HashedLocator) (idx : ℕ), l.hashTable = none →
      GetNumberOfIdsInBucket l idx = 0) ∧
    (∀ (t : List (Option (List ℕ))) (idx : ℕ), t.getD idx none = none →
      GetNumberOfIdsInBucket ⟨some t⟩ idx = 0) ∧
    (∀ (t : List (Option (List ℕ))) (idx : ℕ) (bkt : List ℕ),
      t.getD idx none = some bkt →
      GetNumberOfIdsInBucket ⟨some t⟩ idx = bkt.length) := by
  refine ⟨?_, ?_, ?_⟩
  · intro l idx h
    unfold GetNumberOfIdsInBucket
    rw [h]
  · intro t idx h
    unfold GetNumberOfIdsInBucket
    dsimp only
    rw [h]
  · intro t idx bkt h
    unfold GetNumberOfIdsInBucket
    dsimp only
    rw [h]

/-- Witness for C10: a null table, a null bucket, and a two-id bucket. -/
theorem bucket_count_null_tolerant_w :
    GetNumberOfIdsInBucket ⟨none⟩ 3 = 0 ∧
    GetNumberOfIdsInBucket ⟨some [none]⟩ 0 = 0 ∧
    GetNumberOfIdsInBucket ⟨some [some [7, 8]]⟩ 0 = 2 :=
  ⟨bucket_count_null_tolerant.1 ⟨none⟩ 3 rfl,
   bucket_count_null_tolerant.2.1 [none] 0 rfl,
   bucket_count_null_tolerant.2.2 [some [7, 8]] 0 [7, 8] rfl⟩

end SMPMerge
